import Mathlib

/-!
Shallow embedding of the GeoTrust `zk-verifier` Soroban contract
(`src/contracts/zk-verifier/src/lib.rs`) and proofs about it.

Bytes (`BytesN<N>` in the source) are modelled as `List Nat`; the fixed
length `N` of the Rust type appears as a hypothesis where it matters.
External host functions (SHA-256, the BN254 curve operations and the
multi-pairing check, the current ledger sequence number) are parameters,
collected in a `Host` structure: the contract is proved correct for every
choice of them.  Administrative authorisation (`require_auth`) is an
external capability check outside the verifier's logic; the embedded
administrative operations model the behaviour after authorisation has
succeeded.  Rust `panic!` paths are modelled by returning `none`.
-/

namespace GeoTrust

/-- Byte strings (`BytesN<N>` / `Bytes` in the source); each entry is one byte. -/
abbrev Bytes := List Nat

/-- `LocationProof` from the source: a 64-byte proof buffer and a vector of
`u32` public inputs (`[cell_id, grid_size_scaled, ...]`). -/
structure LocationProof where
  proof : Bytes
  public_inputs : List Nat
deriving DecidableEq

/-- `VerificationKey` from the source: `alpha_g1 : BytesN<64>`,
`beta_g2, gamma_g2, delta_g2 : BytesN<128>`, `ic : Vec<BytesN<64>>`. -/
structure VerificationKey where
  alpha_g1 : Bytes
  beta_g2 : Bytes
  gamma_g2 : Bytes
  delta_g2 : Bytes
  ic : List Bytes
deriving DecidableEq

/-- The host environment: external cryptographic primitives and the ledger
sequence number.  `Bn254G1Affine::from_array` / `Bn254G2Affine::from_array`
only wrap the raw bytes (validation happens inside the host functions), so
group elements are represented by their byte encodings and the curve
operations act on byte strings. -/
structure Host where
  sha256 : Bytes → Bytes
  g1_neg : Bytes → Bytes
  g1_add : Bytes → Bytes → Bytes
  g1_mul : Bytes → Nat → Bytes
  pairing_check : List Bytes → List Bytes → Bool
  ledgerSeq : Nat

/-- The contract's instance storage: the `VKSet` flag, the optional
verification key (`VK`), its hash (`VKHash`), and the replay-protection
map `Nonces : Map<BytesN<32>, u64>`, modelled as an association list. -/
structure ContractState where
  vkSet : Bool
  vk : Option VerificationKey
  vkHash : Option Bytes
  nonces : List (Bytes × Nat)
deriving DecidableEq

/-- Lookup in the `Nonces` map (the value stored under a key, if present). -/
def mapLookup : List (Bytes × Nat) → Bytes → Option Nat
  | [], _ => none
  | (k, v) :: rest, key => if k = key then some v else mapLookup rest key

/-- `soroban_sdk::Map::try_get`: returns `Ok(Some v)` when the key is
present, `Ok(None)` when it is absent, and an `Err` only when a stored
value fails to convert to the expected type — impossible here, since the
contract itself writes only `u64` values under `Nonces`.  Hence the result
is always `Except.ok`. -/
def mapTryGet (m : List (Bytes × Nat)) (k : Bytes) : Except Unit (Option Nat) :=
  Except.ok (mapLookup m k)

/-- `soroban_sdk::Map::set`: insert or overwrite the value under a key. -/
def mapSet : List (Bytes × Nat) → Bytes → Nat → List (Bytes × Nat)
  | [], k, v => [(k, v)]
  | (k1, v1) :: rest, k, v =>
    if k1 = k then (k, v) :: rest else (k1, v1) :: mapSet rest k v

/-- `bytes.iter().all(|&b| b == 0)`: the all-zero (group identity) pattern. -/
def isZeroBytes (bs : Bytes) : Bool := bs.all (fun b => b == 0)

/-- Step 4 of `verify`, extraction of the "A" point: `a_bytes` starts as
`[0u8; 64]` and indices `i < min 64 proof_bytes.len()` are overwritten with
`proof_bytes[i]` (`List.getD i 0` is that byte for `i` in range and the
initial `0` otherwise). -/
def extractA (pb : Bytes) : Bytes :=
  (List.range 64).map (fun i => if i < pb.length then pb.getD i 0 else 0)

/-- Step 4 of `verify`, extraction of the "B" point: `b_bytes` starts as
`[0u8; 128]`; when `proof_bytes.len() ≥ 64`, indices
`i < min 32 (proof_bytes.len() - 32)` are overwritten with
`proof_bytes[32 + i]`.  The source guards each index with
`32usize.checked_add(i)` (which cannot overflow for these values, exactly
as in `Nat`) and an `idx >= proof_bytes.len()` early `return false`,
modelled by the `all` test; `none` is that early return. -/
def extractB (pb : Bytes) : Option Bytes :=
  if 64 ≤ pb.length then
    let maxI := min 32 (pb.length - 32)
    if (List.range maxI).all (fun i => 32 + i < pb.length) then
      some ((List.range 128).map (fun i => if i < maxI then pb.getD (32 + i) 0 else 0))
    else none
  else some (List.replicate 128 0)

/-- Step 5 of `verify`, the "C" point: when `proof_bytes.len() ≥ 128` the
64 bytes starting at offset 64 are used (with the same guarded indexing as
for "B"); otherwise the already-extracted "A" point is reused. -/
def extractC (pb : Bytes) (a : Bytes) : Option Bytes :=
  if 128 ≤ pb.length then
    if (List.range 64).all (fun i => 64 + i < pb.length) then
      some ((List.range 64).map (fun i => pb.getD (64 + i) 0))
    else none
  else some a

/-- The 32-byte big-endian buffer built from a `u32` public input in
step 6 of `verify`: 28 zero bytes followed by the four bytes of the input. -/
def u32BeBytes (input : Nat) : Bytes :=
  List.replicate 28 0 ++
    [(input >>> 24) % 256, (input >>> 16) % 256, (input >>> 8) % 256, input % 256]

/-- `U256::from_be_bytes`: the natural number a big-endian byte string denotes. -/
def beBytesToNat (bs : Bytes) : Nat := bs.foldl (fun acc b => 256 * acc + b) 0

/-- `Fr::from_u256` applied to the buffer of `u32BeBytes`: the scalar a
public input is turned into. -/
def frFromU32 (input : Nat) : Nat := beBytesToNat (u32BeBytes input)

/-- One iteration of the IC-accumulation loop in step 6 of `verify`:
the guards (`i >= vk.ic.len()` and the two `match ... None => return false`)
become `none`; otherwise `input * IC[i]` is added to the accumulator. -/
def icLoopBody (H : Host) (pis : List Nat) (ic : List Bytes)
    (acc : Option Bytes) (i : Nat) : Option Bytes :=
  match acc with
  | none => none
  | some a =>
    if ic.length ≤ i then none
    else
      match pis.get? i with
      | none => none
      | some input =>
        match ic.get? i with
        | none => none
        | some icp => some (H.g1_add a (H.g1_mul icp (frFromU32 input)))

/-- Step 6 of `verify`: `ic_sum` starts at `IC[0]` (rejecting when `ic` is
empty) and the loop runs over `i` in `1..max_iterations` with
`max_iterations = min (min pis.len ic.len) 1000`. -/
def computeIcSum (H : Host) (pis : List Nat) (ic : List Bytes) : Option Bytes :=
  match ic.get? 0 with
  | none => none
  | some ic0 =>
    let maxIterations := min (min pis.length ic.length) 1000
    (List.range' 1 (maxIterations - 1)).foldl (icLoopBody H pis ic) (some ic0)

/-- `compute_proof_id`: SHA-256 of the 64-byte proof buffer, copied into a
32-byte array (`for i in 0..32.min(hash.len())`). -/
def compute_proof_id (H : Host) (proof : LocationProof) : Bytes :=
  let hash := H.sha256 proof.proof
  (List.range 32).map (fun i => if i < hash.length then hash.getD i 0 else 0)

/-- `ZkVerifier::verify`, translated step by step from the source.  Returns
the boolean result together with the resulting contract state (the source
mutates `env` storage; every `return false` leaves storage untouched). -/
def verify (H : Host) (s : ContractState) (proof : LocationProof)
    (expected_cell_id : Nat) : Bool × ContractState :=
  -- Step 1: at least two public inputs, and public_inputs[0] == expected id.
  if proof.public_inputs.length < 2 then (false, s)
  else
    match proof.public_inputs.get? 0 with
    | none => (false, s)
    | some cell_id =>
      if cell_id ≠ expected_cell_id then (false, s)
      else
        -- Step 2: the proof buffer must not be all-zero.
        let proof_bytes := proof.proof
        if ¬ proof_bytes.any (fun b => b != 0) then (false, s)
        else
          -- Step 3: the VKSet flag must be set and a key stored.
          if s.vkSet = false then (false, s)
          else
            match s.vk with
            | none => (false, s)
            | some vk =>
              -- Steps 4-5: slice the proof buffer into A, B, C.
              let a_g1 := extractA proof_bytes
              match extractB proof_bytes with
              | none => (false, s)
              | some b_g2 =>
                match extractC proof_bytes a_g1 with
                | none => (false, s)
                | some c_g1 =>
                  -- Step 6: accumulate the input commitment.
                  match computeIcSum H proof.public_inputs vk.ic with
                  | none => (false, s)
                  | some ic_sum =>
                    -- Step 7: multi-pairing check
                    -- e(A,B)·e(-alpha,beta)·e(-C,gamma)·e(-IC,delta) = 1.
                    let g1_points := [a_g1, H.g1_neg vk.alpha_g1,
                                      H.g1_neg c_g1, H.g1_neg ic_sum]
                    let g2_points := [b_g2, vk.beta_g2, vk.gamma_g2, vk.delta_g2]
                    if H.pairing_check g1_points g2_points = false then (false, s)
                    else
                      -- Step 8: grid-size bounds.
                      match proof.public_inputs.get? 1 with
                      | none => (false, s)
                      | some grid_size =>
                        if grid_size = 0 then (false, s)
                        else if grid_size < 1000000 ∨ 10000000 < grid_size then (false, s)
                        else
                          -- Step 9: cell_id bound.
                          if 100000 < cell_id then (false, s)
                          else
                            -- Step 10: replay protection.
                            let proof_id := compute_proof_id H proof
                            if (mapTryGet s.nonces proof_id).isOk then (false, s)
                            else
                              (true, { s with
                                nonces := mapSet s.nonces proof_id H.ledgerSeq })

/-- `ZkVerifier::set_verification_key` (after the admin authorisation has
succeeded): rejects (`panic!`, modelled as `none`) when any of the four
fixed key components is all-zero, when `ic` is empty, or when any of the
first `min(ic.len(), 1000)` elements of `ic` is all-zero; otherwise stores
the key, sets `VKSet`, and stores the SHA-256 of `alpha_g1` (copied into a
32-byte array) as `VKHash`. -/
def set_verification_key (H : Host) (s : ContractState) (vk : VerificationKey) :
    Option ContractState :=
  if isZeroBytes vk.alpha_g1 then none
  else if isZeroBytes vk.beta_g2 then none
  else if isZeroBytes vk.gamma_g2 then none
  else if isZeroBytes vk.delta_g2 then none
  else if vk.ic.length = 0 then none
  else
    let maxIterations := min vk.ic.length 1000
    if (List.range maxIterations).all (fun i => ! isZeroBytes (vk.ic.getD i [])) then
      let hash := H.sha256 vk.alpha_g1
      some { s with
        vk := some vk
        vkSet := true
        vkHash := some ((List.range 32).map
          (fun i => if i < hash.length then hash.getD i 0 else 0)) }
    else none

/-- `ZkVerifier::set_verification_key_hash` (after admin authorisation):
rejects an all-zero hash, otherwise stores the hash and sets the `VKSet`
flag — without storing any key under `VK`. -/
def set_verification_key_hash (s : ContractState) (vk_hash : Bytes) :
    Option ContractState :=
  if isZeroBytes vk_hash then none
  else some { s with vkHash := some vk_hash, vkSet := true }

/-- `ZkVerifier::clear_verification_key` (after admin authorisation):
removes `VK` and `VKHash` and resets the `VKSet` flag. -/
def clear_verification_key (s : ContractState) : ContractState :=
  { s with vk := none, vkHash := none, vkSet := false }

/-- `ZkVerifier::clean_nonces` (after admin authorisation): panics
(`none`) when `before_ledger` is zero or not strictly less than the
current ledger sequence; otherwise it returns — without touching the
`Nonces` map (the function body contains no storage write). -/
def clean_nonces (H : Host) (s : ContractState) (before_ledger : Nat) :
    Option ContractState :=
  if before_ledger = 0 then none
  else if H.ledgerSeq ≤ before_ledger then none
  else some s

/-- `ZkVerifier::verify_batch`: panics (`none`) when the two lists differ
in length or exceed `max_batch_size = min (min len len) 100`; otherwise
runs `verify` on each indexed pair in order, threading the contract state
(each call's storage writes are visible to later calls), collecting the
boolean results.  The per-index `get` panics are dead (the index stays
below the length) and are modelled by the `none` branches. -/
def verify_batch (H : Host) (s : ContractState) (proofs : List LocationProof)
    (expected_cell_ids : List Nat) : Option (List Bool × ContractState) :=
  if proofs.length ≠ expected_cell_ids.length then none
  else
    let maxBatchSize := min (min proofs.length expected_cell_ids.length) 100
    if maxBatchSize < proofs.length ∨ maxBatchSize < expected_cell_ids.length then none
    else
      (List.range proofs.length).foldl
        (fun acc i =>
          match acc with
          | none => none
          | some (results, st) =>
            match proofs.get? i, expected_cell_ids.get? i with
            | some p, some c =>
              let r := verify H st p c
              some (results ++ [r.fst], r.snd)
            | _, _ => none)
        (some ([], s))

/-- Modelled from the spec's words (§4.3 step 6), for comparison with
`computeIcSum`: `IC = ic[0] + Σ over i in [1, min(len pis, len ic, 1000))
of (pis[i] as scalar) · ic[i]`, the sum taken in index order. -/
def icSpecSum (H : Host) (pis : List Nat) (ic : List Bytes) : Bytes :=
  let m := min (min pis.length ic.length) 1000
  (List.range' 1 (m - 1)).foldl
    (fun acc i => H.g1_add acc (H.g1_mul (ic.getD i []) (pis.getD i 0)))
    (ic.getD 0 [])

/-- Modelled from the spec's words (§4.5), for comparison with
`verify_batch`: apply `verify` item by item in input order, threading the
state, output order matching input order. -/
def batchSpec (H : Host) : ContractState → List LocationProof → List Nat →
    List Bool × ContractState
  | s, [], _ => ([], s)
  | s, _ :: _, [] => ([], s)
  | s, p :: ps, c :: cs =>
    let r := verify H s p c
    let rest := batchSpec H r.snd ps cs
    (r.fst :: rest.fst, rest.snd)

/-! ## Concrete fixtures for witnesses and counterexamples -/

/-- A concrete host whose pairing check always succeeds. -/
def hostT : Host :=
  { sha256 := fun _ => List.replicate 32 9
    g1_neg := fun b => b
    g1_add := fun a _ => a
    g1_mul := fun a _ => a
    pairing_check := fun _ _ => true
    ledgerSeq := 5 }

/-- A concrete host whose pairing check always fails. -/
def hostF : Host :=
  { sha256 := fun _ => List.replicate 32 9
    g1_neg := fun b => b
    g1_add := fun a _ => a
    g1_mul := fun a _ => a
    pairing_check := fun _ _ => false
    ledgerSeq := 5 }

/-- A structurally valid verification key with two IC elements. -/
def vkGood : VerificationKey :=
  { alpha_g1 := 1 :: List.replicate 63 0
    beta_g2 := 1 :: List.replicate 127 0
    gamma_g2 := 1 :: List.replicate 127 0
    delta_g2 := 1 :: List.replicate 127 0
    ic := [1 :: List.replicate 63 0, 2 :: List.replicate 63 0] }

/-- A state with `vkGood` installed and an empty replay ledger. -/
def sKey : ContractState :=
  { vkSet := true, vk := some vkGood, vkHash := none, nonces := [] }

/-- The initial state: no key, no hash, empty replay ledger. -/
def sInit : ContractState :=
  { vkSet := false, vk := none, vkHash := none, nonces := [] }

/-- A state holding one replay-ledger entry recorded at height 0. -/
def sOld : ContractState :=
  { vkSet := false, vk := none, vkHash := none
    nonces := [(List.replicate 32 7, 0)] }

/-- A proof with a non-zero 64-byte buffer and public inputs
`[cell_id = 1, grid_scale = 1000000]`, all inside the domain bounds. -/
def pGood : LocationProof :=
  { proof := 1 :: List.replicate 63 0, public_inputs := [1, 1000000] }

/-- A structurally suspicious key: 1001 IC elements of which the last one
(index 1000) is the all-zero pattern; everything else is non-zero. -/
def vkLong : VerificationKey :=
  { alpha_g1 := 1 :: List.replicate 63 0
    beta_g2 := 1 :: List.replicate 127 0
    gamma_g2 := 1 :: List.replicate 127 0
    delta_g2 := 1 :: List.replicate 127 0
    ic := List.replicate 1000 (1 :: List.replicate 63 0) ++ [List.replicate 64 0] }

/-! ## Basic facts -/

/-- The replay check in step 10 tests `nonces.try_get(proof_id).is_ok()`,
and `Map::try_get` returns `Ok` both when the key is present (`Ok(Some _)`)
and when it is absent (`Ok(None)`); so the test is always true, the
`return false` under it always fires, and `verify` returns `false` with
the state unchanged on every input — the success branch (recording the
proof id and returning `true`) is unreachable. -/
theorem verify_eq_false (H : Host) (s : ContractState) (p : LocationProof)
    (v : Nat) : verify H s p v = (false, s) := by
  unfold verify
  dsimp only
  repeat' split <;> try rfl

/-! ## Claim theorems -/

/-- C3: every execution of `verify` that returns `false` leaves the state
unchanged (no replay-ledger entry added or modified), and the only state
mutation `verify` can perform is the single ledger write
(`nonces.set(proof_id, current_ledger)`) on the path that returns `true`. -/
theorem C3_rejection_is_side_effect_free (H : Host) (s : ContractState)
    (p : LocationProof) (v : Nat) :
    ((verify H s p v).fst = false → (verify H s p v).snd = s)
    ∧ ((verify H s p v).fst = true →
        (verify H s p v).snd =
          { s with nonces := mapSet s.nonces (compute_proof_id H p) H.ledgerSeq }) := by
  refine ⟨fun _ => ?_, fun h => ?_⟩
  · rw [verify_eq_false]
  · rw [verify_eq_false] at h
    cases h

/-- C3 witness: on a concrete fully-valid input the call returns `false`
and, by the theorem, leaves the state exactly as it was. -/
theorem C3_rejection_is_side_effect_free_witness :
    (verify hostT sKey pGood 1).fst = false ∧ (verify hostT sKey pGood 1).snd = sKey :=
  ⟨by decide, (C3_rejection_is_side_effect_free hostT sKey pGood 1).1 (by decide)⟩

/-- C6: `verify` returns `false` whenever `public_inputs[1]` (grid_scale)
lies outside `[1000000, 10000000]` or `public_inputs[0]` (cell_id) exceeds
`100000`, whatever the other checks would say. -/
theorem C6_domain_bounds (H : Host) (s : ContractState) (p : LocationProof)
    (v : Nat)
    (h : (∃ g, p.public_inputs.get? 1 = some g ∧ (g < 1000000 ∨ 10000000 < g)) ∨
         (∃ c, p.public_inputs.get? 0 = some c ∧ 100000 < c)) :
    (verify H s p v).fst = false := by
  rw [verify_eq_false]

/-- C6 witness: grid_scale 999999 (just under the floor), grid_scale
10000001 (just over the ceiling) and cell_id 100001 are each rejected. -/
theorem C6_domain_bounds_witness :
    (verify hostT sKey
      { proof := pGood.proof, public_inputs := [1, 999999] } 1).fst = false
    ∧ (verify hostT sKey
      { proof := pGood.proof, public_inputs := [1, 10000001] } 1).fst = false
    ∧ (verify hostT sKey
      { proof := pGood.proof, public_inputs := [100001, 1000000] } 100001).fst = false :=
  ⟨C6_domain_bounds hostT sKey _ 1 (Or.inl ⟨999999, by decide, by decide⟩),
   C6_domain_bounds hostT sKey _ 1 (Or.inl ⟨10000001, by decide, by decide⟩),
   C6_domain_bounds hostT sKey _ 100001 (Or.inr ⟨100001, by decide, by decide⟩)⟩

/-- C7: with no `VerificationKey` value stored, `verify` returns `false`
for every input; `clear_verification_key` removes the stored key; and
`set_verification_key_hash` sets the `VKSet` flag without storing a key. -/
theorem C7_no_key_no_pass (H : Host) (s : ContractState) (p : LocationProof)
    (v : Nat) :
    (s.vk = none → (verify H s p v).fst = false)
    ∧ (clear_verification_key s).vk = none
    ∧ (∀ hsh s2, set_verification_key_hash s hsh = some s2 →
        s2.vkSet = true ∧ s2.vk = s.vk) := by
  refine ⟨fun _ => ?_, rfl, fun hsh s2 h => ?_⟩
  · rw [verify_eq_false]
  · unfold set_verification_key_hash at h
    split at h
    · cases h
    · cases h
      exact ⟨rfl, rfl⟩

/-- C7 witness: in the initial state (no key) a non-trivial proof with
matching public inputs is rejected; clearing `sKey` leaves no key; setting
only the key hash stores no key. -/
theorem C7_no_key_no_pass_witness :
    (verify hostT sInit pGood 1).fst = false
    ∧ (clear_verification_key sKey).vk = none
    ∧ ((set_verification_key_hash sInit (List.replicate 32 3)).map
        (fun s2 => s2.vkSet) = some true) :=
  ⟨(C7_no_key_no_pass hostT sInit pGood 1).1 (by decide),
   (C7_no_key_no_pass hostT sKey pGood 1).2.1,
   by
    have h := (C7_no_key_no_pass hostT sInit pGood 1).2.2
      (List.replicate 32 3)
      { vkSet := true, vk := none, vkHash := some (List.replicate 32 3), nonces := [] }
      (by decide)
    rw [show set_verification_key_hash sInit (List.replicate 32 3) =
      some { vkSet := true, vk := none, vkHash := some (List.replicate 32 3),
             nonces := [] } from by decide]
    simp [h.1]⟩

/-- C10: the proof identity digest depends only on the 64-byte proof
buffer — two proofs with byte-equal buffers share the digest regardless of
their public inputs — and a proof whose identity is already in the replay
ledger is rejected. -/
theorem C10_proof_id_replay (H : Host) (p q : LocationProof)
    (s : ContractState) (v : Nat) (h : p.proof = q.proof) :
    compute_proof_id H p = compute_proof_id H q
    ∧ ((mapLookup s.nonces (compute_proof_id H p)).isSome = true →
        (verify H s q v).fst = false) := by
  refine ⟨?_, fun _ => ?_⟩
  · unfold compute_proof_id
    rw [h]
  · rw [verify_eq_false]

/-- C10 witness: two proofs sharing a buffer but with different public
inputs get the same digest, and with that digest in the ledger the second
proof is rejected. -/
theorem C10_proof_id_replay_witness :
    compute_proof_id hostT pGood =
      compute_proof_id hostT { proof := pGood.proof, public_inputs := [2, 7] }
    ∧ (verify hostT
        { sKey with nonces := [(compute_proof_id hostT pGood, 4)] }
        { proof := pGood.proof, public_inputs := [2, 7] } 2).fst = false :=
  ⟨(C10_proof_id_replay hostT pGood
      { proof := pGood.proof, public_inputs := [2, 7] }
      sKey 2 rfl).1,
   (C10_proof_id_replay hostT pGood
      { proof := pGood.proof, public_inputs := [2, 7] }
      { sKey with nonces := [(compute_proof_id hostT pGood, 4)] } 2 rfl).2
      (by decide)⟩

/-- C2 (code-bug evidence): a fresh, fully valid proof — two public
inputs, matching cell id, non-zero buffer, key installed, a host whose
pairing check succeeds, bounds satisfied, empty replay ledger — is already
rejected on its first submission, and no ledger entry is written: the
`try_get(proof_id).is_ok()` replay test is also true for an absent key
(`Ok(None)`), so the success branch of `verify` is unreachable. -/
theorem C2_fresh_valid_proof_rejected :
    verify hostT sKey pGood 1 = (false, sKey) ∧ sKey.nonces = [] := by
  constructor
  · rfl
  · rfl

/-- C8 (code-bug evidence): `clean_nonces` enforces the bounds on
`before_ledger` (zero and `≥ current ledger` are rejected) but removes
nothing: with an entry recorded at height 0 and `before_ledger = 1 <
current = 5`, the call succeeds yet the state — entry included — is
returned unchanged. -/
theorem C8_clean_nonces_removes_nothing :
    clean_nonces hostT sOld 1 = some sOld
    ∧ sOld.nonces = [(List.replicate 32 7, 0)]
    ∧ clean_nonces hostT sOld 0 = none
    ∧ clean_nonces hostT sOld 5 = none
    ∧ clean_nonces hostT sOld 7 = none := by
  refine ⟨by decide, by decide, by decide, by decide, by decide⟩

/-! ## Input-commitment accumulation (C4) -/

/-- The scalar built from a `u32` public input is the input itself: the
28-zero-byte big-endian buffer round-trips through `U256::from_be_bytes`. -/
theorem frFromU32_eq (input : Nat) (h : input < 4294967296) :
    frFromU32 input = input := by
  have hz : ∀ n, List.foldl (fun acc b => 256 * acc + b) 0 (List.replicate n 0) = 0 := by
    intro n
    induction n with
    | zero => rfl
    | succ k ih => simpa [List.replicate_succ] using ih
  unfold frFromU32 u32BeBytes beBytesToNat
  rw [List.foldl_append, hz]
  simp only [List.foldl]
  rw [Nat.shiftRight_eq_div_pow, Nat.shiftRight_eq_div_pow, Nat.shiftRight_eq_div_pow]
  have h24 : (2 : Nat) ^ 24 = 16777216 := by norm_num
  have h16 : (2 : Nat) ^ 16 = 65536 := by norm_num
  have h8 : (2 : Nat) ^ 8 = 256 := by norm_num
  rw [h24, h16, h8]
  omega

/-- Step functions that agree on the list's elements give equal left folds. -/
theorem foldl_congr_mem {α β : Type} (f g : β → α → β) (l : List α) (a : β)
    (h : ∀ b x, x ∈ l → f b x = g b x) : l.foldl f a = l.foldl g a := by
  induction l generalizing a with
  | nil => rfl
  | cons x t ih =>
    simp only [List.foldl, h a x (by simp)]
    exact ih _ (fun b y hy => h b y (by simp [hy]))

/-- Indexing a `take` below the cut gives the original element. -/
theorem getD_take {α : Type} (l : List α) (n i : Nat) (d : α) (h : i < n) :
    (l.take n).getD i d = l.getD i d := by
  rw [List.getD_eq_getD_get?, List.getD_eq_getD_get?, List.get?_eq_getElem?,
    List.get?_eq_getElem?, List.getElem?_take]
  simp [h]

/-- Over indices that are in range for both lists, the guarded
IC-accumulation loop of `verify` never hits a rejection branch and equals
the plain fold of `acc + scalar·ic[i]`. -/
theorem foldl_icLoopBody (H : Host) (pis : List Nat) (ic : List Bytes) :
    ∀ (l : List Nat) (a : Bytes), (∀ i ∈ l, i < pis.length ∧ i < ic.length) →
    List.foldl (icLoopBody H pis ic) (some a) l =
      some (List.foldl
        (fun acc i => H.g1_add acc (H.g1_mul (ic.getD i []) (frFromU32 (pis.getD i 0))))
        a l) := by
  intro l
  induction l with
  | nil => intro a _; rfl
  | cons i t ih =>
    intro a hmem
    obtain ⟨hip, hic⟩ := hmem i (by simp)
    have ht : ∀ j ∈ t, j < pis.length ∧ j < ic.length :=
      fun j hj => hmem j (by simp [hj])
    have hp : pis.get? i = some (pis.getD i 0) := by
      rw [List.get?_eq_getElem?, List.getElem?_eq_getElem hip,
        List.getD_eq_getElem pis 0 hip]
    have hq : ic.get? i = some (ic.getD i []) := by
      rw [List.get?_eq_getElem?, List.getElem?_eq_getElem hic,
        List.getD_eq_getElem ic [] hic]
    simp only [List.foldl, icLoopBody, Nat.not_le.mpr hic, if_neg (by omega : ¬ ic.length ≤ i), hp, hq]
    exact ih _ ht

/-- Indices of the accumulation loop are in range for both lists. -/
theorem mem_icRange (pis : List Nat) (ic : List Bytes) (i : Nat)
    (h : i ∈ List.range' 1 (min (min pis.length ic.length) 1000 - 1)) :
    i < pis.length ∧ i < ic.length := by
  rw [List.mem_range'_1] at h
  omega

/-- C4: with a key installed, the input commitment `verify` computes is
exactly `ic[0] + Σ over i in [1, min(len pis, len ic, 1000)) of
(public_inputs[i] as scalar) · ic[i]`; the accumulation never looks beyond
the first 1000 entries of either list; and whenever `ic` has fewer
elements than the supplied public inputs, `verify` returns `false`. -/
theorem C4_input_commitment (H : Host) (pis : List Nat) (ic : List Bytes)
    (h0 : ic ≠ []) (hb : ∀ x ∈ pis, x < 4294967296) :
    computeIcSum H pis ic = some (icSpecSum H pis ic)
    ∧ computeIcSum H pis ic = computeIcSum H (pis.take 1000) (ic.take 1000)
    ∧ (∀ (s : ContractState) (p : LocationProof) (v : Nat) (vk : VerificationKey),
        s.vk = some vk → vk.ic.length < p.public_inputs.length →
        (verify H s p v).fst = false) := by
  have hic0 : ic.get? 0 = some (ic.getD 0 []) := by
    have : 0 < ic.length := List.length_pos.mpr h0
    rw [List.get?_eq_getElem?, List.getElem?_eq_getElem this,
      List.getD_eq_getElem ic [] this]
  refine ⟨?_, ?_, fun s p v vk _ _ => by rw [verify_eq_false]⟩
  · unfold computeIcSum icSpecSum
    rw [hic0]
    dsimp only
    rw [foldl_icLoopBody H pis ic _ _ (mem_icRange pis ic)]
    refine congrArg some (foldl_congr_mem _ _ _ _ ?_)
    intro b i hi
    have hip := (mem_icRange pis ic i hi).1
    have hx : pis.getD i 0 ∈ pis := by
      rw [List.getD_eq_getElem pis 0 hip]
      exact List.getElem_mem hip
    rw [frFromU32_eq _ (hb _ hx)]
  · have hlt : (pis.take 1000).length = min 1000 pis.length := List.length_take 1000 pis
    have hli : (ic.take 1000).length = min 1000 ic.length := List.length_take 1000 ic
    have hm : min (min (pis.take 1000).length (ic.take 1000).length) 1000 =
        min (min pis.length ic.length) 1000 := by
      rw [hlt, hli]; omega
    have hic0t : (ic.take 1000).get? 0 = some (ic.getD 0 []) := by
      rw [List.get?_eq_getElem?, List.getElem?_take]
      simp only [show (0 : Nat) < 1000 by omega, if_true]
      rw [← List.get?_eq_getElem?, hic0]
    unfold computeIcSum
    rw [hic0, hic0t]
    dsimp only
    rw [hm]
    rw [foldl_icLoopBody H pis ic _ _ (mem_icRange pis ic)]
    rw [foldl_icLoopBody H (pis.take 1000) (ic.take 1000) _ _ ?inRange]
    case inRange =>
      intro i hi
      rw [List.mem_range'_1] at hi
      rw [hlt, hli]
      omega
    refine congrArg some (foldl_congr_mem _ _ _ _ ?_)
    intro b i hi
    have h1000 : i < 1000 := by
      rw [List.mem_range'_1] at hi
      omega
    rw [getD_take pis 1000 i 0 h1000, getD_take ic 1000 i [] h1000]

/-- C4 witness: a concrete key and concrete public inputs, where the
guarded loop result coincides with the spec formula and agrees with the
truncated computation; a state whose key has fewer IC elements than the
proof has public inputs yields `false`. -/
theorem C4_input_commitment_witness :
    computeIcSum hostT [5, 7] vkGood.ic = some (icSpecSum hostT [5, 7] vkGood.ic)
    ∧ computeIcSum hostT [5, 7] vkGood.ic =
        computeIcSum hostT ([5, 7].take 1000) (vkGood.ic.take 1000)
    ∧ (verify hostT sKey { proof := pGood.proof, public_inputs := [1, 1000000, 9] }
        1).fst = false :=
  ⟨(C4_input_commitment hostT [5, 7] vkGood.ic (by decide) (by decide)).1,
   (C4_input_commitment hostT [5, 7] vkGood.ic (by decide) (by decide)).2.1,
   (C4_input_commitment hostT [1, 1000000, 9] vkGood.ic (by decide) (by decide)).2.2
     sKey { proof := pGood.proof, public_inputs := [1, 1000000, 9] } 1 vkGood
     (by decide) (by decide)⟩

/-! ## The pairing check (C1) -/

/-- C1: once a proof passes the early guards (two public inputs, matching
cell id, non-zero 64-byte buffer, key installed), the components fed to
the multi-pairing check `e(A,B)·e(-alpha,beta)·e(-C,gamma)·e(-IC,delta)=1`
are: "A", decoded from the start of the 64-byte buffer; "B", decoded from
the remaining bytes (bytes 32..64, zero-padded to a G2 encoding); and "C",
which for the 64-byte buffer (too short to hold a separate third
component) is "A" itself — and whenever that check returns `false`,
`verify` returns `false`. -/
theorem C1_pairing_equation (H : Host) (s : ContractState) (p : LocationProof)
    (v : Nat) (vk : VerificationKey) (hlen : p.proof.length = 64)
    (hpi : 2 ≤ p.public_inputs.length) (hcell : p.public_inputs.get? 0 = some v)
    (hnz : p.proof.any (fun b => b != 0) = true)
    (hset : s.vkSet = true) (hvk : s.vk = some vk) :
    extractC p.proof (extractA p.proof) = some (extractA p.proof)
    ∧ extractB p.proof =
        some ((List.range 128).map (fun i => if i < 32 then p.proof.getD (32 + i) 0 else 0))
    ∧ (∀ icSum, computeIcSum H p.public_inputs vk.ic = some icSum →
        H.pairing_check
          [extractA p.proof, H.g1_neg vk.alpha_g1,
           H.g1_neg (extractA p.proof), H.g1_neg icSum]
          [(List.range 128).map (fun i => if i < 32 then p.proof.getD (32 + i) 0 else 0),
           vk.beta_g2, vk.gamma_g2, vk.delta_g2] = false →
        (verify H s p v).fst = false) := by
  refine ⟨?_, ?_, fun icSum _ _ => by rw [verify_eq_false]⟩
  · unfold extractC
    rw [hlen]
    norm_num
  · unfold extractB
    rw [hlen]
    norm_num
    intro x hx hc
    omega

/-- C1 witness: with a host whose pairing check is constantly `false`, a
concrete proof passing all the early guards is rejected. -/
theorem C1_pairing_equation_witness :
    (verify hostF sKey pGood 1).fst = false :=
  (C1_pairing_equation hostF sKey pGood 1 vkGood (by decide) (by decide)
      (by decide) (by decide) (by decide) (by decide)).2.2
    (icSpecSum hostF pGood.public_inputs vkGood.ic) (by decide) (by decide)

/-! ## Key validation (C5) -/

/-- C5 (amended): `set_verification_key` rejects exactly when one of
`alpha_g1, beta_g2, gamma_g2, delta_g2` is the all-zero pattern, `ic` is
empty, or some element among the first `min(ic.len(), 1000)` entries of
`ic` is the all-zero pattern — elements beyond index 999 are not
inspected; an accepted key is stored and becomes the active key. -/
theorem C5_key_validation (H : Host) (s : ContractState) (vk : VerificationKey) :
    ((set_verification_key H s vk).isSome = true ↔
      (isZeroBytes vk.alpha_g1 = false ∧ isZeroBytes vk.beta_g2 = false ∧
       isZeroBytes vk.gamma_g2 = false ∧ isZeroBytes vk.delta_g2 = false ∧
       vk.ic ≠ [] ∧
       ∀ i < min vk.ic.length 1000, isZeroBytes (vk.ic.getD i []) = false))
    ∧ (∀ s2, set_verification_key H s vk = some s2 →
        s2.vk = some vk ∧ s2.vkSet = true) := by
  have hall : ∀ n : Nat,
      ((List.range n).all (fun i => ! isZeroBytes (vk.ic.getD i [])) = true ↔
        ∀ i < n, isZeroBytes (vk.ic.getD i []) = false) := by
    intro n
    rw [List.all_eq_true]
    constructor
    · intro h i hi
      simpa using h i (List.mem_range.mpr hi)
    · intro h i hi
      simpa using h i (List.mem_range.mp hi)
  refine ⟨?_, fun s2 h => ?_⟩
  · unfold set_verification_key
    repeat' split
    all_goals simp_all [hall, List.length_eq_zero]
  · unfold set_verification_key at h
    dsimp only at h
    repeat' split at h
    all_goals cases h
    exact ⟨rfl, rfl⟩

set_option maxRecDepth 100000 in
/-- C5 counterexample to the claim as stated: `vkLong` contains an IC
element that decodes to the identity (index 1000 is all-zero), yet
`set_verification_key` accepts it — the validation loop stops at
`min(ic.len(), 1000)` and never inspects it. -/
theorem C5_key_validation_counterexample :
    isZeroBytes (vkLong.ic.getD 1000 (1 :: List.replicate 63 0)) = true
    ∧ (set_verification_key hostT sInit vkLong).isSome = true := by
  have hlen : vkLong.ic.length = 1001 := by
    unfold vkLong
    simp
  have hzero : vkLong.ic.getD 1000 (1 :: List.replicate 63 0) = List.replicate 64 0 := by
    rw [List.getD_eq_getElem _ _ (by rw [hlen]; omega)]
    unfold vkLong
    dsimp only
    rw [List.getElem_append_right (by simp)]
    simp
  have hmin : min vkLong.ic.length 1000 = 1000 := by
    rw [hlen]
    omega
  have hall : (List.range (min vkLong.ic.length 1000)).all
      (fun i => ! isZeroBytes (vkLong.ic.getD i [])) = true := by
    rw [hmin, List.all_eq_true]
    intro i hi
    rw [List.mem_range] at hi
    have hgd : vkLong.ic.getD i [] = 1 :: List.replicate 63 0 := by
      rw [List.getD_eq_getElem _ _ (by rw [hlen]; omega)]
      unfold vkLong
      dsimp only
      rw [List.getElem_append_left (by simp; omega)]
      exact List.getElem_replicate _ _
    rw [hgd]
    decide
  refine ⟨by rw [hzero]; decide, ?_⟩
  unfold set_verification_key
  rw [if_neg (by decide : ¬ isZeroBytes vkLong.alpha_g1 = true),
    if_neg (by decide : ¬ isZeroBytes vkLong.beta_g2 = true),
    if_neg (by decide : ¬ isZeroBytes vkLong.gamma_g2 = true),
    if_neg (by decide : ¬ isZeroBytes vkLong.delta_g2 = true),
    if_neg (by rw [hlen]; omega : ¬ vkLong.ic.length = 0)]
  dsimp only
  rw [if_pos hall]
  rfl

/-- C5 witness: a structurally valid key with a single IC element is
accepted and becomes the active key. -/
theorem C5_key_validation_witness :
    (set_verification_key hostT sInit
      { alpha_g1 := vkGood.alpha_g1, beta_g2 := vkGood.beta_g2,
        gamma_g2 := vkGood.gamma_g2, delta_g2 := vkGood.delta_g2,
        ic := [1 :: List.replicate 63 0] }).isSome = true :=
  (C5_key_validation hostT sInit _).1.mpr
    ⟨by decide, by decide, by decide, by decide, by decide, by decide⟩

/-! ## Batch dispatch (C9) -/

/-- `batchSpec` produces one result per item for equal-length inputs. -/
theorem batchSpec_length (H : Host) :
    ∀ (proofs : List LocationProof) (cells : List Nat) (s : ContractState),
      proofs.length = cells.length →
      (batchSpec H s proofs cells).fst.length = proofs.length := by
  intro proofs
  induction proofs with
  | nil => intro cells s _; rfl
  | cons p ps ih =>
    intro cells s h
    cases cells with
    | nil => cases h
    | cons c cs =>
      simp only [batchSpec, List.length_cons]
      rw [ih cs _ (by simpa using h)]

/-- The indexed loop of `verify_batch` equals the sequential recursion
`batchSpec`, carrying an already-accumulated result prefix. -/
theorem batch_loop_eq (H : Host) :
    ∀ (proofs : List LocationProof) (cells : List Nat) (s : ContractState)
      (acc : List Bool),
      proofs.length = cells.length →
      (List.range proofs.length).foldl
        (fun a i =>
          match a with
          | none => none
          | some (results, st) =>
            match proofs.get? i, cells.get? i with
            | some p, some c =>
              let r := verify H st p c
              some (results ++ [r.fst], r.snd)
            | _, _ => none)
        (some (acc, s))
      = some (acc ++ (batchSpec H s proofs cells).fst,
              (batchSpec H s proofs cells).snd) := by
  intro proofs
  induction proofs with
  | nil =>
    intro cells s acc _
    simp [batchSpec]
  | cons p ps ih =>
    intro cells s acc h
    cases cells with
    | nil => cases h
    | cons c cs =>
      rw [List.length_cons, List.range_succ_eq_map, List.foldl_cons, List.foldl_map]
      have hstep : ∀ (b : Option (List Bool × ContractState)) (x : Nat), x ∈ List.range ps.length →
          (fun a i =>
            match a with
            | none => none
            | some (results, st) =>
              match (p :: ps).get? i, (c :: cs).get? i with
              | some q, some d =>
                let r := verify H st q d
                some (results ++ [r.fst], r.snd)
              | _, _ => none) b (x + 1)
          = (fun a i =>
            match a with
            | none => none
            | some (results, st) =>
              match ps.get? i, cs.get? i with
              | some q, some d =>
                let r := verify H st q d
                some (results ++ [r.fst], r.snd)
              | _, _ => none) b x := by
        intro b x _
        rcases b with _ | ⟨results, st⟩ <;> rfl
      rw [foldl_congr_mem _ _ _ _ hstep]
      show List.foldl _ (some (acc ++ [(verify H s p c).fst], (verify H s p c).snd))
          (List.range ps.length) = _
      rw [ih cs (verify H s p c).snd (acc ++ [(verify H s p c).fst]) (by simpa using h)]
      simp [batchSpec]

/-- C9: `verify_batch` rejects the whole batch — no per-item results, no
state change — when the two lists differ in length or exceed 100 items;
otherwise it returns one boolean per item, the i-th being the result of
`verify` on the i-th pair, items processed in input order with each item's
ledger writes carried into the next item's state regardless of sibling
outcomes. -/
theorem C9_verify_batch (H : Host) (s : ContractState)
    (proofs : List LocationProof) (cells : List Nat) :
    ((proofs.length ≠ cells.length ∨ 100 < proofs.length ∨ 100 < cells.length) →
      verify_batch H s proofs cells = none)
    ∧ (proofs.length = cells.length → proofs.length ≤ 100 →
        verify_batch H s proofs cells = some (batchSpec H s proofs cells)
        ∧ (batchSpec H s proofs cells).fst.length = proofs.length) := by
  constructor
  · intro h
    unfold verify_batch
    rcases h with h | h | h
    · rw [if_pos h]
    · by_cases he : proofs.length = cells.length
      · rw [if_neg (by omega)]
        dsimp only
        rw [if_pos (by omega)]
      · rw [if_pos he]
    · by_cases he : proofs.length = cells.length
      · rw [if_neg (by omega)]
        dsimp only
        rw [if_pos (by omega)]
      · rw [if_pos he]
  · intro he hb
    refine ⟨?_, batchSpec_length H proofs cells s he⟩
    unfold verify_batch
    rw [if_neg (by omega)]
    dsimp only
    rw [if_neg (by omega)]
    rw [batch_loop_eq H proofs cells s [] he]
    simp

/-- C9 witness: a concrete two-item batch is accepted and equals the
sequential application of `verify`; a three-item batch against a two-item
id list is rejected. -/
theorem C9_verify_batch_witness :
    verify_batch hostT sKey [pGood, pGood] [1, 1] =
      some (batchSpec hostT sKey [pGood, pGood] [1, 1])
    ∧ verify_batch hostT sKey [pGood, pGood, pGood] [1, 1] = none :=
  ⟨((C9_verify_batch hostT sKey [pGood, pGood] [1, 1]).2 rfl (by decide)).1,
   (C9_verify_batch hostT sKey [pGood, pGood, pGood] [1, 1]).1 (by decide)⟩

end GeoTrust
